import Mathlib

/-!
Verification of the `inverse` tile-platformer simulation core.

A shallow embedding of the repository's three Rust source files
(`level.rs`, `player.rs`, `main.rs`) and proofs about the embedded
definitions.

Conventions of the embedding:

* `usize` values become `Nat`; arithmetic that Rust performs on `usize`
  without overflow concerns is plain `Nat` arithmetic.  The one place the
  source can underflow (`gem_index - 1` in `Editor::toggle_tile_index`) is
  modelled explicitly with an `Option` (a `none` result models the checked
  arithmetic panic).
* `f32` values become `ℚ`.  All numeric literals of the source
  (`0.25`, `0.5`, `1.0 - 10e-6`, `1.0 / 32.0 / 2.0 / 2.0`, …) are dyadic
  or decimal rationals; none of the proved properties depend on
  low-order floating-point rounding, only on sign tests, comparisons with
  the screen bounds, and floors, which agree between `f32` and `ℚ` at the
  magnitudes involved.
* `Vec<bool>` becomes `List Bool`.  Reads/writes that would panic out of
  bounds in Rust are modelled with `List.getD` / `List.set` (which
  default / no-op); all theorems that depend on an in-bounds access carry
  the corresponding length hypothesis.
* Functions that can panic in a way a claim cares about return `Option`,
  with `none` modelling the panic; `assert!` preconditions are modelled as
  an `if` guard returning `none` when violated.
-/

set_option maxRecDepth 8000
set_option maxHeartbeats 1600000

namespace Inverse

/-- `Levels::LEVEL_WIDTH` in `level.rs`. -/
def LEVEL_WIDTH : Nat := 15

/-- `Levels::LEVEL_HEIGHT` in `level.rs`. -/
def LEVEL_HEIGHT : Nat := 11

/-- `LOGICAL_SCREEN_WIDTH` in `main.rs` (`Levels::LEVEL_WIDTH as f32`). -/
def LOGICAL_SCREEN_WIDTH : ℚ := 15

/-- `LOGICAL_SCREEN_HEIGHT` in `main.rs` (`Levels::LEVEL_HEIGHT as f32`). -/
def LOGICAL_SCREEN_HEIGHT : ℚ := 11

/-- The `struct Levels` of `level.rs`. -/
structure Levels where
  tiles : List Bool
  num_levels : Nat
  level_index : Nat
  x_offset : Nat
  limited_gem : Option Nat
  full_gem : Option Nat
deriving DecidableEq, Repr

/-- The `enum IndexingError` of `level.rs`. -/
inductive IndexingError where
  | TooBig
  | TooSmall
deriving DecidableEq, Repr

/-- The `enum ParseLevelError` of `level.rs`. -/
inductive ParseLevelError where
  | InvalidHeight
  | InvalidWidth
  | InvalidTileCharacter (c : Char)
  | InvalidEndingCharacter (c : Char)
  | LineEndsEarly (i : Nat)
  | DuplicateGem (c : Char)
deriving DecidableEq, Repr

namespace Levels

/-- `Levels::is_index_in_bounds` in `level.rs`: both components are compared
inclusively against `LEVEL_WIDTH` / `LEVEL_HEIGHT`. -/
def is_index_in_bounds (_g : Levels) (index : Nat × Nat) : Bool :=
  index.1 ≤ LEVEL_WIDTH ∧ index.2 ≤ LEVEL_HEIGHT

/-- `Levels::index_of_unchecked` in `level.rs`:
`(index[0] + x_offset) * LEVEL_HEIGHT + index[1]`, then `% tiles.len()`.
(Rust would panic on the remainder when `tiles` is empty; the theorems
about the in-bounds result assume `tiles` nonempty.) -/
def index_of_unchecked (g : Levels) (index : Nat × Nat) : Nat :=
  ((index.1 + g.x_offset) * LEVEL_HEIGHT + index.2) % g.tiles.length

/-- `Levels::index_of` in `level.rs`. -/
def index_of (g : Levels) (index : Nat × Nat) : Option Nat :=
  if g.is_index_in_bounds index then some (g.index_of_unchecked index) else none

/-- `Levels::get` in `level.rs` (returning the tile value rather than a
reference; the `tiles[tile_index]` access is in bounds whenever
`tiles` is nonempty because `index_of` reduces modulo `tiles.len()`). -/
def get (g : Levels) (index : Nat × Nat) : Option Bool :=
  (g.index_of index).map (fun tile_index => g.tiles.getD tile_index false)

/-- `Levels::index_of_position` in `level.rs`.  A position is a pair of
rationals standing for the `[f32; 2]`; `as usize` on the checked
non-negative coordinates is truncation, i.e. `Int.toNat ∘ Rat.floor`. -/
def index_of_position (_g : Levels) (position : ℚ × ℚ) :
    Except (Option IndexingError × Option IndexingError) (Nat × Nat) :=
  let e0 : Option IndexingError :=
    if position.1 < 0 then some .TooSmall
    else if LOGICAL_SCREEN_WIDTH ≤ position.1 then some .TooBig
    else none
  let e1 : Option IndexingError :=
    if position.2 < 0 then some .TooSmall
    else if LOGICAL_SCREEN_HEIGHT ≤ position.2 then some .TooBig
    else none
  match e0, e1 with
  | none, none =>
      .ok (min position.1.floor.toNat (LEVEL_WIDTH - 1),
           min position.2.floor.toNat (LEVEL_HEIGHT - 1))
  | _, _ => .error (e0, e1)

/-- `Levels::get_from_position` in `level.rs`.  The `Ok` branch's
`self.get(index).unwrap()` cannot fail (the clamped index is always in
`is_index_in_bounds`), so it is modelled with `getD false`. -/
def get_from_position (g : Levels) (position : ℚ × ℚ) : Option Bool :=
  match g.index_of_position position with
  | .ok index => some ((g.get index).getD false)
  | .error (none, some .TooBig) => some false
  | .error (none, some .TooSmall) => some true
  | .error _ => none

/-- `Levels::update_level_offset` in `level.rs`. -/
def update_level_offset (g : Levels) : Levels :=
  { g with x_offset := g.level_index * (LEVEL_WIDTH - 1) }

/-- `Levels::next_level` in `level.rs`: `level_index += 1; level_index %=
num_levels`, then recompute the offset.  (Rust would panic on the remainder
when `num_levels = 0`; every theorem using this assumes `num_levels > 0`.) -/
def next_level (g : Levels) : Levels :=
  update_level_offset { g with level_index := (g.level_index + 1) % g.num_levels }

/-- `Levels::previous_level` in `level.rs`. -/
def previous_level (g : Levels) : Levels :=
  update_level_offset <|
    if g.level_index = 0 then { g with level_index := g.num_levels - 1 }
    else { g with level_index := g.level_index - 1 }

/-- `Levels::offset_of_level` in `level.rs`. -/
def offset_of_level (level_index : Nat) : Nat :=
  level_index * (LEVEL_WIDTH - 1) * LEVEL_HEIGHT

/-- One inner `for` loop of `Levels::insert_level`: `k` times
`tiles.insert(offset, b); offset += 1`.  Returns the final `(tiles, offset)`. -/
def insertRun : List Bool → Nat → Bool → Nat → List Bool × Nat
  | tiles, offset, _, 0 => (tiles, offset)
  | tiles, offset, b, k + 1 => insertRun (tiles.insertIdx offset b) (offset + 1) b k

/-- The outer `for` loop of `Levels::insert_level` over `c` columns: each
column inserts 5 `true` entries then `LEVEL_HEIGHT - 5` `false` entries. -/
def insertColumns : List Bool → Nat → Nat → List Bool
  | tiles, _, 0 => tiles
  | tiles, offset, c + 1 =>
      let r1 := insertRun tiles offset true 5
      let r2 := insertRun r1.1 r1.2 false (LEVEL_HEIGHT - 5)
      insertColumns r2.1 r2.2 c

/-- `Levels::insert_level` in `level.rs`.  The `assert!(index <
self.num_levels)` (checked after the increment) is modelled by returning
`none` when it fails. -/
def insert_level (g : Levels) (index : Nat) : Option Levels :=
  let g1 := { g with num_levels := g.num_levels + 1 }
  if index < g1.num_levels then
    let g2 := if index ≤ g1.level_index then g1.next_level else g1
    some { g2 with tiles := insertColumns g2.tiles (offset_of_level index) (LEVEL_WIDTH - 1) }
  else none

/-- The removal loop of `Levels::remove_level`: `k` times
`tiles.remove(offset)` at a fixed offset. -/
def eraseRun : List Bool → Nat → Nat → List Bool
  | tiles, _, 0 => tiles
  | tiles, offset, k + 1 => eraseRun (tiles.eraseIdx offset) offset k

/-- `Levels::remove_level` in `level.rs`.  The `assert!(index <
self.num_levels)` (checked before the decrement) is modelled by returning
`none` when it fails. -/
def remove_level (g : Levels) (index : Nat) : Option Levels :=
  if index < g.num_levels then
    let g1 := { g with num_levels := g.num_levels - 1 }
    let g2 := if index < g1.level_index then g1.previous_level else g1
    some { g2 with
      tiles := eraseRun g2.tiles (offset_of_level index) ((LEVEL_WIDTH - 1) * LEVEL_HEIGHT) }
  else none

end Levels

/-- Claim C5. `index_of([col, row])` is `none` exactly when `col > LEVEL_WIDTH`
or `row > LEVEL_HEIGHT` (bounds inclusive of the constants themselves), and
otherwise is `some (((col + x_offset) * LEVEL_HEIGHT + row) % tiles.len())`,
wrapping circularly over the whole concatenated array.  (The success case is
stated under `0 < tiles.length`, where the Rust remainder is defined.) -/
theorem c5_index_of_bounds_and_wrap (g : Levels) (col row : Nat) :
    (g.index_of (col, row) = none ↔ LEVEL_WIDTH < col ∨ LEVEL_HEIGHT < row) ∧
    (col ≤ LEVEL_WIDTH → row ≤ LEVEL_HEIGHT → 0 < g.tiles.length →
      g.index_of (col, row) =
        some (((col + g.x_offset) * LEVEL_HEIGHT + row) % g.tiles.length)) := by
  constructor
  · simp only [Levels.index_of, Levels.is_index_in_bounds]
    by_cases h1 : col ≤ LEVEL_WIDTH <;> by_cases h2 : row ≤ LEVEL_HEIGHT <;>
      simp [h1, h2] <;> omega
  · intro h1 h2 _
    simp [Levels.index_of, Levels.is_index_in_bounds, Levels.index_of_unchecked,
      h1, h2]

/-- Witness for C5 at a concrete grid and index: column 15 row 12 is out of
bounds, and the in-bounds index (14, 7) of a two-level grid with
`x_offset = 14` wraps modulo the 308-entry array. -/
theorem c5_index_of_bounds_and_wrap_witness :
    ({ tiles := List.replicate 308 false, num_levels := 2, level_index := 1,
       x_offset := 14, limited_gem := none, full_gem := none : Levels }.index_of
        (14, 7) = some ((28 * 11 + 7) % 308)) ∧
    (14 ≤ LEVEL_WIDTH ∧ 7 ≤ LEVEL_HEIGHT ∧
      0 < (List.replicate 308 false).length) := by
  refine ⟨?_, by decide, by decide, by decide⟩
  have h := (c5_index_of_bounds_and_wrap
    { tiles := List.replicate 308 false, num_levels := 2, level_index := 1,
      x_offset := 14, limited_gem := none, full_gem := none } 14 7).2
    (by decide) (by decide) (by simp)
  simpa using h

/-- The claim C2 asserts the edge policy for **X** out of range; the code keys
it on **Y** (`error[1]`) with X in range.  Concretely, with Y = 5 in range and
X = −1 negative, the claim demands `some true` but the code's
`Err([Some(TooSmall), None])` falls to the catch-all arm and yields `none`;
and with X = 5 in range and Y = −1 out of range the claim demands `none` but
the code yields `some true`. -/
theorem c2_counterexample :
    (({ tiles := List.replicate 154 false, num_levels := 1, level_index := 0,
        x_offset := 0, limited_gem := none, full_gem := none : Levels
      }).get_from_position (-1, 5) = none) ∧
    (({ tiles := List.replicate 154 false, num_levels := 1, level_index := 0,
        x_offset := 0, limited_gem := none, full_gem := none : Levels
      }).get_from_position (5, -1) = some true) := by
  constructor <;> rfl

/-- Claim C2 (amended). The out-of-range edge policy of `get_from_position` is
keyed on the Y coordinate: for every point whose X coordinate is within the
logical screen bounds but whose Y coordinate is out of them, the lookup
returns `some true` (solid) when Y is negative and `some false` (open) when Y
is at or above the upper bound; for every point whose X coordinate is out of
range — whether or not Y is in range — the lookup returns `none`. -/
theorem c2_get_from_position_edges (g : Levels) (x y : ℚ) :
    (0 ≤ x → x < LOGICAL_SCREEN_WIDTH → y < 0 →
      g.get_from_position (x, y) = some true) ∧
    (0 ≤ x → x < LOGICAL_SCREEN_WIDTH → LOGICAL_SCREEN_HEIGHT ≤ y →
      g.get_from_position (x, y) = some false) ∧
    (x < 0 ∨ LOGICAL_SCREEN_WIDTH ≤ x → g.get_from_position (x, y) = none) := by
  simp only [LOGICAL_SCREEN_WIDTH, LOGICAL_SCREEN_HEIGHT]
  refine ⟨fun hx0 hx1 hy => ?_, fun hx0 hx1 hy => ?_, fun hx => ?_⟩
  · simp only [Levels.get_from_position, Levels.index_of_position,
      LOGICAL_SCREEN_WIDTH, LOGICAL_SCREEN_HEIGHT]
    rw [if_neg (by linarith), if_neg (by linarith), if_pos hy]
  · simp only [Levels.get_from_position, Levels.index_of_position,
      LOGICAL_SCREEN_WIDTH, LOGICAL_SCREEN_HEIGHT]
    rw [if_neg (by linarith), if_neg (by linarith), if_neg (by linarith),
      if_pos hy]
  · simp only [Levels.get_from_position, Levels.index_of_position,
      LOGICAL_SCREEN_WIDTH, LOGICAL_SCREEN_HEIGHT]
    rcases hx with hx | hx
    · rw [if_pos hx]
    · rw [if_neg (by linarith), if_pos hx]

/-- Witness for C2 (amended) at concrete points of a concrete grid:
`(3, −1)` is a ceiling signal, `(3, 11)` is a void signal, `(−1, 5)` fails. -/
theorem c2_get_from_position_edges_witness :
    (({ tiles := List.replicate 154 false, num_levels := 1, level_index := 0,
        x_offset := 0, limited_gem := none, full_gem := none : Levels
      }).get_from_position (3, -1) = some true) ∧
    (({ tiles := List.replicate 154 false, num_levels := 1, level_index := 0,
        x_offset := 0, limited_gem := none, full_gem := none : Levels
      }).get_from_position (3, 11) = some false) ∧
    (({ tiles := List.replicate 154 false, num_levels := 1, level_index := 0,
        x_offset := 0, limited_gem := none, full_gem := none : Levels
      }).get_from_position (-1, 5) = none) := by
  refine ⟨?_, ?_, ?_⟩
  · exact (c2_get_from_position_edges _ 3 (-1)).1 (by norm_num)
      (by norm_num [LOGICAL_SCREEN_WIDTH]) (by norm_num)
  · exact (c2_get_from_position_edges _ 3 11).2.1 (by norm_num)
      (by norm_num [LOGICAL_SCREEN_WIDTH]) (by norm_num [LOGICAL_SCREEN_HEIGHT])
  · exact (c2_get_from_position_edges _ (-1) 5).2.2 (Or.inl (by norm_num))

/-- The counterexample state for C3: two levels with the last one active. -/
def c3state : Levels :=
  { tiles := List.replicate 308 false, num_levels := 2, level_index := 1,
    x_offset := 14, limited_gem := none, full_gem := none }

/-- The claim C3 asserts the invariant `level_index < num_levels` survives
`remove_level(at)` even when `at == level_index == num_levels - 1`.  It does
not: removing the active last level decrements `num_levels` but leaves
`level_index` alone (the adjustment only fires when `level_index > at`),
leaving `level_index = num_levels`. -/
theorem c3_counterexample :
    ((c3state.remove_level 1).map fun g => decide (g.level_index < g.num_levels))
      = some false := by
  decide

/-- Claim C3 (amended). Starting from any state with
`level_index < num_levels` (the lower bound `0 ≤ level_index` is inherent in
the `usize` type), the invariant still holds after `next_level`,
`previous_level`, any `insert_level` meeting its precondition, and any
`remove_level` meeting its precondition **except** when
`at = level_index = num_levels - 1`, where the removal leaves
`level_index = num_levels`. -/
theorem c3_level_index_invariant (g : Levels) (h : g.level_index < g.num_levels) :
    (g.next_level.level_index < g.next_level.num_levels) ∧
    (g.previous_level.level_index < g.previous_level.num_levels) ∧
    (∀ i g1, g.insert_level i = some g1 → g1.level_index < g1.num_levels) ∧
    (∀ i g1, g.remove_level i = some g1 →
      ¬(i = g.level_index ∧ g.level_index = g.num_levels - 1) →
      g1.level_index < g1.num_levels) := by
  refine ⟨?_, ?_, ?_, ?_⟩
  · simp only [Levels.next_level, Levels.update_level_offset]
    exact Nat.mod_lt _ (by omega)
  · simp only [Levels.previous_level, Levels.update_level_offset]
    split <;> simp <;> omega
  · intro i g1 hg1
    simp only [Levels.insert_level] at hg1
    split at hg1
    · split at hg1 <;> simp only [Option.some.injEq] at hg1 <;> subst hg1
      · simp only [Levels.next_level, Levels.update_level_offset]
        exact Nat.mod_lt _ (by omega)
      · simpa using by omega
    · exact absurd hg1 (by simp)
  · intro i g1 hg1 hex
    simp only [Levels.remove_level] at hg1
    split at hg1
    · split at hg1 <;> simp only [Option.some.injEq] at hg1 <;> subst hg1
      · simp only [Levels.previous_level, Levels.update_level_offset]
        split <;> simp <;> omega
      · simp only []
        omega
    · exact absurd hg1 (by simp)

/-- Witness for C3 (amended) at a concrete state: advancing past the last of
two levels wraps back to a valid index, and removing the level after the
active one keeps the invariant. -/
theorem c3_level_index_invariant_witness :
    (c3state.next_level.level_index < c3state.next_level.num_levels) ∧
    ((c3state.remove_level 0).map fun g => decide (g.level_index < g.num_levels))
      = some true := by
  have h := c3_level_index_invariant c3state (by decide)
  refine ⟨h.1, ?_⟩
  have hrm :
      c3state.remove_level 0 = some
        { tiles := List.replicate 154 false, num_levels := 1, level_index := 0,
          x_offset := 0, limited_gem := none, full_gem := none } := by decide
  have h0 := h.2.2.2 0 _ hrm (by decide)
  rw [hrm]
  exact congrArg some (decide_eq_true h0)

/-- The tile block spliced in per column by `insert_level`. -/
def columnPattern : List Bool :=
  List.replicate 5 true ++ List.replicate (LEVEL_HEIGHT - 5) false

/-- The whole tile block spliced in by `insert_level` over `c` columns. -/
def levelPattern : Nat → List Bool
  | 0 => []
  | c + 1 => columnPattern ++ levelPattern c

theorem insertIdx_length_append {α : Type} (pre : List α) (a : α) (post : List α) :
    (pre ++ post).insertIdx pre.length a = pre ++ a :: post := by
  induction pre with
  | nil => rfl
  | cons hd tl ih => simpa using ih

theorem insertRun_append (b : Bool) :
    ∀ (k : Nat) (pre post : List Bool),
      Levels.insertRun (pre ++ post) pre.length b k
        = (pre ++ (List.replicate k b ++ post), pre.length + k) := by
  intro k
  induction k with
  | zero => intro pre post; simp [Levels.insertRun]
  | succ k ih =>
      intro pre post
      rw [Levels.insertRun, insertIdx_length_append]
      have h1 : pre ++ b :: post = (pre ++ [b]) ++ post := by simp
      have h2 : pre.length + 1 = (pre ++ [b]).length := by simp
      rw [h1, h2, ih]
      simp [List.replicate_succ]
      omega

theorem insertColumns_append :
    ∀ (c : Nat) (pre post : List Bool),
      Levels.insertColumns (pre ++ post) pre.length c
        = pre ++ (levelPattern c ++ post) := by
  intro c
  induction c with
  | zero => intro pre post; simp [Levels.insertColumns, levelPattern]
  | succ c ih =>
      intro pre post
      rw [Levels.insertColumns, insertRun_append]
      have h1 : pre ++ (List.replicate 5 true ++ post)
          = (pre ++ List.replicate 5 true) ++ post := by simp
      have h2 : pre.length + 5 = (pre ++ List.replicate 5 true).length := by simp
      rw [h1, h2, insertRun_append]
      have h3 : (pre ++ List.replicate 5 true) ++
            (List.replicate (LEVEL_HEIGHT - 5) false ++ post)
          = ((pre ++ List.replicate 5 true) ++
              List.replicate (LEVEL_HEIGHT - 5) false) ++ post := by simp
      have h4 : (pre ++ List.replicate 5 true).length +
            (LEVEL_HEIGHT - 5)
          = ((pre ++ List.replicate 5 true) ++
              List.replicate (LEVEL_HEIGHT - 5) false).length := by
        simp [LEVEL_HEIGHT]
      rw [h3, h4, ih]
      simp [levelPattern, columnPattern, LEVEL_HEIGHT]

theorem eraseIdx_length_append {α : Type} (pre : List α) (a : α) (post : List α) :
    (pre ++ a :: post).eraseIdx pre.length = pre ++ post := by
  induction pre with
  | nil => rfl
  | cons hd tl ih => simpa using ih

theorem eraseRun_append :
    ∀ (B pre post : List Bool),
      Levels.eraseRun (pre ++ (B ++ post)) pre.length B.length = pre ++ post := by
  intro B
  induction B with
  | nil => intro pre post; simp [Levels.eraseRun]
  | cons b B ih =>
      intro pre post
      rw [List.length_cons, Levels.eraseRun, List.cons_append,
        eraseIdx_length_append, ih]

theorem levelPattern_full_length :
    (levelPattern (LEVEL_WIDTH - 1)).length = (LEVEL_WIDTH - 1) * LEVEL_HEIGHT := by
  decide

theorem insertColumns_take_drop (l : List Bool) (o c : Nat) (h : o ≤ l.length) :
    Levels.insertColumns l o c = l.take o ++ (levelPattern c ++ l.drop o) := by
  have hx := insertColumns_append c (l.take o) (l.drop o)
  rwa [List.take_append_drop, List.length_take, Nat.min_eq_left h] at hx

theorem eraseRun_levelPattern (l : List Bool) (o : Nat) (h : o ≤ l.length) :
    Levels.eraseRun (l.take o ++ (levelPattern (LEVEL_WIDTH - 1) ++ l.drop o)) o
      ((LEVEL_WIDTH - 1) * LEVEL_HEIGHT) = l := by
  have hx := eraseRun_append (levelPattern (LEVEL_WIDTH - 1)) (l.take o) (l.drop o)
  rw [List.length_take, Nat.min_eq_left h, levelPattern_full_length] at hx
  rw [hx, List.take_append_drop]

theorem insert_level_mk_le (T : List Bool) (n li xo i : Nat) (lg fg : Option Nat)
    (hle : i ≤ li) (h : li < n) :
    Levels.insert_level ⟨T, n, li, xo, lg, fg⟩ i
      = some ⟨Levels.insertColumns T (Levels.offset_of_level i) (LEVEL_WIDTH - 1),
              n + 1, li + 1, (li + 1) * (LEVEL_WIDTH - 1), lg, fg⟩ := by
  simp only [Levels.insert_level, Levels.next_level, Levels.update_level_offset]
  rw [if_pos (show i < n + 1 by omega), if_pos hle,
    Nat.mod_eq_of_lt (show li + 1 < n + 1 by omega)]

theorem insert_level_mk_gt (T : List Bool) (n li xo i : Nat) (lg fg : Option Nat)
    (hgt : li < i) (h : i ≤ n) :
    Levels.insert_level ⟨T, n, li, xo, lg, fg⟩ i
      = some ⟨Levels.insertColumns T (Levels.offset_of_level i) (LEVEL_WIDTH - 1),
              n + 1, li, xo, lg, fg⟩ := by
  simp only [Levels.insert_level, Levels.next_level, Levels.update_level_offset]
  rw [if_pos (show i < n + 1 by omega), if_neg (show ¬i ≤ li by omega)]

theorem remove_level_mk_lt (T : List Bool) (n li xo i : Nat) (lg fg : Option Nat)
    (hlt : i < li) (h : i < n) :
    Levels.remove_level ⟨T, n, li, xo, lg, fg⟩ i
      = some ⟨Levels.eraseRun T (Levels.offset_of_level i)
                ((LEVEL_WIDTH - 1) * LEVEL_HEIGHT),
              n - 1, li - 1, (li - 1) * (LEVEL_WIDTH - 1), lg, fg⟩ := by
  simp only [Levels.remove_level, Levels.previous_level, Levels.update_level_offset]
  rw [if_pos h, if_pos hlt, if_neg (show ¬li = 0 by omega)]

theorem remove_level_mk_ge (T : List Bool) (n li xo i : Nat) (lg fg : Option Nat)
    (hge : li ≤ i) (h : i < n) :
    Levels.remove_level ⟨T, n, li, xo, lg, fg⟩ i
      = some ⟨Levels.eraseRun T (Levels.offset_of_level i)
                ((LEVEL_WIDTH - 1) * LEVEL_HEIGHT),
              n - 1, li, xo, lg, fg⟩ := by
  simp only [Levels.remove_level, Levels.previous_level, Levels.update_level_offset]
  rw [if_pos h, if_neg (show ¬i < li by omega)]

/-- The counterexample state for C6: one level, `level_index = 0`. -/
def c6state : Levels :=
  { tiles := List.replicate 154 false, num_levels := 1, level_index := 0,
    x_offset := 0, limited_gem := none, full_gem := none }

/-- The claim C6 says `level_index` is restored by `insert_level(at)` then
`remove_level(at)` **iff** it was not on the boundary `at`.  In fact it is
restored even when `at = level_index` (here `at = level_index =
num_levels - 1 = 0`): insertion advances the active level past the new block
and removal moves it back. -/
theorem c6_counterexample :
    (((c6state.insert_level 0).bind fun g1 => g1.remove_level 0).map
        fun g2 => g2.level_index) = some c6state.level_index ∧
    (0 = c6state.level_index ∧
      c6state.level_index = c6state.num_levels - 1) := by
  refine ⟨?_, rfl, rfl⟩
  simp [c6state, Levels.insert_level, Levels.remove_level, Levels.next_level,
    Levels.previous_level, Levels.update_level_offset]

/-- Claim C6 (amended). For every well-formed grid (active level in range,
`tiles.len() = LEVEL_TILE_COUNT * num_levels`) and every valid index
`at ≤ num_levels`, `insert_level(at)` followed by `remove_level(at)` restores
the original `tiles`, `num_levels`, **and** `level_index` — the latter
unconditionally, including when `level_index` sits on the boundary `at`. -/
theorem c6_insert_remove_roundtrip (g : Levels) (i : Nat)
    (hi : i ≤ g.num_levels) (hinv : g.level_index < g.num_levels)
    (hlen : g.tiles.length = (LEVEL_WIDTH - 1) * LEVEL_HEIGHT * g.num_levels) :
    (((g.insert_level i).bind fun g1 => g1.remove_level i).map
        fun g2 => (g2.tiles, g2.num_levels, g2.level_index))
      = some (g.tiles, g.num_levels, g.level_index) := by
  obtain ⟨T, n, li, xo, lg, fg⟩ := g
  simp only at hi hinv hlen
  have holen : Levels.offset_of_level i ≤ T.length := by
    rw [hlen]
    simp only [Levels.offset_of_level, LEVEL_WIDTH, LEVEL_HEIGHT]
    nlinarith [hi]
  have htiles1 :=
    insertColumns_take_drop T (Levels.offset_of_level i) (LEVEL_WIDTH - 1) holen
  have htiles2 := eraseRun_levelPattern T (Levels.offset_of_level i) holen
  by_cases hc : i ≤ li
  · rw [insert_level_mk_le T n li xo i lg fg hc hinv, Option.some_bind,
      remove_level_mk_lt _ _ _ _ _ _ _ (show i < li + 1 by omega)
        (show i < n + 1 by omega),
      htiles1, htiles2]
    simp
  · rw [insert_level_mk_gt T n li xo i lg fg (by omega) hi, Option.some_bind,
      remove_level_mk_ge _ _ _ _ _ _ _ (by omega) (show i < n + 1 by omega),
      htiles1, htiles2]
    simp

/-- Witness for C6 (amended): inserting then removing a level at index 0 of a
two-level grid whose active level is the second restores all three fields. -/
theorem c6_insert_remove_roundtrip_witness :
    (((c3state.insert_level 0).bind fun g1 => g1.remove_level 0).map
        fun g2 => (g2.tiles, g2.num_levels, g2.level_index))
      = some (c3state.tiles, c3state.num_levels, c3state.level_index) := by
  exact c6_insert_remove_roundtrip c3state 0 (by decide) (by decide)
    (by simp [c3state, LEVEL_WIDTH, LEVEL_HEIGHT])

/-- `Player::UPDATES_PER_SECOND` in `player.rs`. -/
def UPDATES_PER_SECOND : ℚ := 60

/-- `Player::UPS_SCALE` in `player.rs`. -/
def UPS_SCALE : ℚ := UPDATES_PER_SECOND / 30

/-- `Player::SIZE` in `player.rs`. -/
def SIZE : ℚ := 1 / 2

/-- `Player::GRAVITY` in `player.rs`. -/
def GRAVITY : ℚ := 1 / 32 / UPS_SCALE / UPS_SCALE

/-- `Player::CYOTE_FRAMES` in `player.rs`: `(0.05 * 60.0) as u8 = 3`. -/
def CYOTE_FRAMES : Nat := 3

/-- The `struct Player` of `player.rs`.  The two `[bool; 4]` input arrays are
modelled as length-4 boolean lists. -/
structure Player where
  position : ℚ × ℚ
  velocity : ℚ × ℚ
  air_kind : Bool
  on_ground : Bool
  cyote_time : Nat
  inputs_down : List Bool
  inputs_ready : List Bool
deriving DecidableEq, Repr

namespace Player

/-- `Player::gravity` in `player.rs`. -/
def gravity (p : Player) : ℚ :=
  match p.air_kind with
  | true => GRAVITY
  | false => -GRAVITY

/-- The `CORNERS` constant inside `Player::move_by`. -/
def CORNERS : List (ℚ × ℚ) := [(1, 1), (-1, 1), (-1, -1), (1, -1)]

/-- The per-component corner adjustment inside `Player::move_by`:
`if x == 1.0 { 1.0 - 10e-6 } else { x }` (the f32 literal `10e-6` is the
rational `1/100000` up to a relative rounding error of order `2^-24`, which
none of the proved properties depend on). -/
def adjustCorner (x : ℚ) : ℚ := if x = 1 then 1 - 10 / 1000000 else x

/-- The `for corner in CORNERS` loop of `Player::move_by`, carrying the
mutable `self.position` and `collision` state.  A `none` second component
models the `?` early return (lookup with no signal), with the positions
mutated so far kept, exactly as the early return leaves `self.position`. -/
def cornerLoop (levels : Levels) (air_kind : Bool) (amount : ℚ × ℚ) :
    List (ℚ × ℚ) → ℚ × ℚ → Bool → (ℚ × ℚ) × Option Bool
  | [], pos, collision => (pos, some collision)
  | corner :: rest, pos, collision =>
      let corner := (adjustCorner corner.1, adjustCorner corner.2)
      let corner_position :=
        (pos.1 + corner.1 * SIZE / 2, pos.2 + corner.2 * SIZE / 2)
      match levels.get_from_position corner_position with
      | none => (pos, none)
      | some tile =>
          if tile = air_kind then cornerLoop levels air_kind amount rest pos collision
          else if amount.1 ≠ 0 then
            let pos := if amount.1 > 0
              then ((corner_position.1.floor : ℚ) - SIZE / 2, pos.2)
              else ((corner_position.1.floor : ℚ) + 1 + SIZE / 2, pos.2)
            cornerLoop levels air_kind amount rest pos true
          else if amount.2 ≠ 0 then
            let pos := if amount.2 > 0
              then (pos.1, (corner_position.2.floor : ℚ) - SIZE / 2)
              else (pos.1, (corner_position.2.floor : ℚ) + 1 + SIZE / 2)
            cornerLoop levels air_kind amount rest pos true
          else (pos, some true)

/-- `Player::move_by` in `player.rs`: add `amount` to the position, then run
the corner loop.  Returns the player with its (possibly snapped) position
together with the `Option<bool>` result. -/
def move_by (p : Player) (levels : Levels) (amount : ℚ × ℚ) :
    Player × Option Bool :=
  let pos := (p.position.1 + amount.1, p.position.2 + amount.2)
  let r := cornerLoop levels p.air_kind amount CORNERS pos false
  ({ p with position := r.1 }, r.2)

/-- `Player::is_intersecting` in `player.rs`.  The zero-displacement
`move_by` never snaps (both `amount` components are zero), so the `&mut
self` of the source leaves the position unchanged and the result is just the
collision signal, with `None` treated as a collision. -/
def is_intersecting (p : Player) (levels : Levels) : Bool :=
  match (p.move_by levels (0, 0)).2 with
  | some collision => collision
  | none => true

/-- Step 1 of `Player::update`: `self.velocity[1] += self.gravity();`. -/
def apply_gravity (p : Player) : Player :=
  { p with velocity := (p.velocity.1, p.velocity.2 + p.gravity) }

/-- The `else` branch of the horizontal sweep in `Player::update`
(level transition when the sweep yields no signal). -/
def transition (p : Player) (levels : Levels) : Player × Levels :=
  if p.position.1 > LOGICAL_SCREEN_WIDTH / 2 then
    ({ p with position := (SIZE / 2, p.position.2) }, levels.next_level)
  else
    ({ p with position := (LOGICAL_SCREEN_WIDTH - SIZE / 2, p.position.2) },
      levels.previous_level)

/-- The tentatively shifted, polarity-toggled player of the flip attempt
(lines 113–124 of `player.rs`): consume `inputs_ready[2]`, shift the
position by one body size along Y keeping the footprint on the same side of
the tile boundary, and toggle `air_kind`. -/
def flipShifted (p : Player) : Player :=
  let p1 := { p with inputs_ready := p.inputs_ready.set 2 false }
  let p2 := match p1.air_kind with
    | true => { p1 with position := (p1.position.1, p1.position.2 + SIZE) }
    | false => { p1 with position := (p1.position.1, p1.position.2 - SIZE) }
  { p2 with air_kind := !p2.air_kind }

/-- Step 9 of `Player::update` (the polarity flip, lines 113–129): when
grounded with the flip input ready, build the shifted toggled body and test
static intersection; on collision revert both the position shift and the
polarity toggle. -/
def flipStep (p : Player) (levels : Levels) : Player :=
  if p.on_ground ∧ p.inputs_ready.getD 2 false then
    let p2 := flipShifted p
    if p2.is_intersecting levels then
      { p2 with position := p.position, air_kind := !p2.air_kind }
    else p2
  else p

/-- `Player::update` in `player.rs`, one fixed tick.  `none` models the
panic of the `.unwrap()` on the vertical sweep; the `transition` branch
returns early without the rest of the tick. -/
def update (p : Player) (levels : Levels) : Option (Player × Levels) :=
  let p := p.apply_gravity
  let r := p.move_by levels (p.velocity.1, 0)
  match r.2 with
  | none => some (transition r.1 levels)
  | some x_collision =>
    let rv := r.1.move_by levels (0, r.1.velocity.2)
    match rv.2 with
    | none => none
    | some y_collision =>
      let p1 : Player := rv.1
      let p2 : Player :=
        if x_collision then { p1 with velocity := (0, p1.velocity.2) } else p1
      let p3 : Player := { p2 with on_ground := false }
      let p4 : Player :=
        if 0 < p3.cyote_time then { p3 with cyote_time := p3.cyote_time - 1 }
        else p3
      let p5 : Player :=
        if y_collision then
          let pg : Player :=
            if (0 : ℚ) < p4.velocity.2 * p4.gravity then
              { p4 with on_ground := true, cyote_time := CYOTE_FRAMES }
            else p4
          { pg with velocity := (pg.velocity.1, 0) }
        else p4
      let p6 : Player :=
        if p5.inputs_ready.getD 0 false ∧ (0 < p5.cyote_time ∨ p5.on_ground)
        then
          { p5 with inputs_ready := p5.inputs_ready.set 0 false,
                    velocity := (p5.velocity.1, -(15 / 2) * UPS_SCALE * p5.gravity) }
        else p5
      let x_input : ℚ := (if p6.inputs_down.getD 3 false then 1 else 0)
                       - (if p6.inputs_down.getD 1 false then 1 else 0)
      let p7 : Player := { p6 with velocity :=
        (p6.velocity.1 * (1 - (1 / 5) / UPS_SCALE)
           + x_input / 32 / UPS_SCALE / UPS_SCALE,
         p6.velocity.2) }
      let p8 : Player := flipStep p7 levels
      some ({ p8 with inputs_down := List.replicate 4 false }, levels)

end Player

/-- A player with normal polarity (`air_kind = false`) at rest. -/
def c1player : Player :=
  { position := (15 / 2, 11 / 2), velocity := (0, 0), air_kind := false,
    on_ground := false, cyote_time := 0,
    inputs_down := List.replicate 4 false,
    inputs_ready := List.replicate 4 false }

/-- The claim C1 says `gravity()` returns `+GRAVITY` when `air_kind` is
false; the match in `player.rs` returns `-GRAVITY` in that case
(`false => -Self::GRAVITY`). -/
theorem c1_counterexample :
    c1player.air_kind = false ∧ c1player.gravity ≠ GRAVITY := by
  refine ⟨rfl, ?_⟩
  simp only [c1player, Player.gravity]
  norm_num [GRAVITY, UPS_SCALE, UPDATES_PER_SECOND]

/-- Claim C1 (amended). `Player::gravity()` returns `−GRAVITY` when `air_kind`
is false and `+GRAVITY` when `air_kind` is true, so the per-tick update
`velocity.y += gravity()` accelerates a normal-polarity (`air_kind = false`)
body toward **decreasing** Y. -/
theorem c1_gravity_polarity (p : Player) :
    (p.air_kind = false → p.gravity = -GRAVITY) ∧
    (p.air_kind = true → p.gravity = GRAVITY) ∧
    (p.air_kind = false →
      p.apply_gravity.velocity.2 = p.velocity.2 - GRAVITY) := by
  refine ⟨fun h => ?_, fun h => ?_, fun h => ?_⟩
  · simp [Player.gravity, h]
  · simp [Player.gravity, h]
  · simp [Player.apply_gravity, Player.gravity, h, sub_eq_add_neg]

/-- Witness for C1 (amended) at a concrete normal-polarity player. -/
theorem c1_gravity_polarity_witness :
    c1player.gravity = -GRAVITY ∧
    c1player.apply_gravity.velocity.2 = c1player.velocity.2 - GRAVITY := by
  exact ⟨(c1_gravity_polarity c1player).1 rfl,
    (c1_gravity_polarity c1player).2.2 rfl⟩

/-- A tile lookup from a position yields a signal exactly when the X
coordinate is within the logical screen bounds (the Y coordinate is always
resolved: in range it indexes, out of range it produces the solid/open edge
signal). -/
theorem get_from_position_isSome_iff (g : Levels) (x y : ℚ) :
    ((g.get_from_position (x, y)).isSome = true) ↔
      (0 ≤ x ∧ x < LOGICAL_SCREEN_WIDTH) := by
  constructor
  · intro h
    by_contra hx
    rcases not_and_or.mp hx with hx0 | hx1
    · have hlt : x < 0 := by linarith [lt_of_not_le hx0]
      simp only [Levels.get_from_position, Levels.index_of_position] at h
      rw [if_pos hlt] at h
      simp at h
    · have hge : LOGICAL_SCREEN_WIDTH ≤ x := le_of_not_lt hx1
      simp only [Levels.get_from_position, Levels.index_of_position] at h
      rw [if_neg (by simp only [LOGICAL_SCREEN_WIDTH] at hge ⊢; linarith),
        if_pos hge] at h
      simp at h
  · rintro ⟨hx0, hx1⟩
    simp only [Levels.get_from_position, Levels.index_of_position]
    rw [if_neg (by linarith), if_neg (by linarith)]
    rcases lt_trichotomy y 0 with hy | hy | hy
    · rw [if_pos hy]; rfl
    · rw [if_neg (by linarith)]
      by_cases hy2 : LOGICAL_SCREEN_HEIGHT ≤ y
      · rw [if_pos hy2]; rfl
      · rw [if_neg hy2]; rfl
    · rw [if_neg (by linarith)]
      by_cases hy2 : LOGICAL_SCREEN_HEIGHT ≤ y
      · rw [if_pos hy2]; rfl
      · rw [if_neg hy2]; rfl

/-- Once the corner loop has recorded a collision, it can only finish with
`some true` (or no signal): it never reports `some false`. -/
theorem cornerLoop_true_ne_some_false (lv : Levels) (ak : Bool) (amt : ℚ × ℚ) :
    ∀ (cs : List (ℚ × ℚ)) (pos : ℚ × ℚ),
      (Player.cornerLoop lv ak amt cs pos true).2 ≠ some false := by
  intro cs
  induction cs with
  | nil => intro pos; simp [Player.cornerLoop]
  | cons c rest ih =>
      intro pos
      simp only [Player.cornerLoop]
      cases hp : lv.get_from_position
          (pos.1 + Player.adjustCorner c.1 * SIZE / 2,
           pos.2 + Player.adjustCorner c.2 * SIZE / 2) with
      | none => simp
      | some tile =>
          by_cases ht : tile = ak
          · simpa [ht] using ih pos
          · simp only [ht, if_false]
            by_cases h1 : amt.1 ≠ 0
            · rw [if_pos h1]
              split <;> exact ih _
            · rw [if_neg h1]
              by_cases h2 : amt.2 ≠ 0
              · rw [if_pos h2]
                split <;> exact ih _
              · simp [h1, h2]

/-- If the corner loop finishes with `some false` starting from a clear
collision flag, no snap ever happened: the position is returned unchanged and
every corner's lookup produced a signal. -/
theorem cornerLoop_some_false (lv : Levels) (ak : Bool) (amt : ℚ × ℚ) :
    ∀ (cs : List (ℚ × ℚ)) (pos pos' : ℚ × ℚ),
      Player.cornerLoop lv ak amt cs pos false = (pos', some false) →
      pos' = pos ∧ ∀ c ∈ cs,
        ((lv.get_from_position
          (pos.1 + Player.adjustCorner c.1 * SIZE / 2,
           pos.2 + Player.adjustCorner c.2 * SIZE / 2)).isSome = true) := by
  intro cs
  induction cs with
  | nil =>
      intro pos pos' h
      simp only [Player.cornerLoop, Prod.mk.injEq] at h
      exact ⟨h.1.symm, by simp⟩
  | cons c rest ih =>
      intro pos pos' h
      simp only [Player.cornerLoop] at h
      split at h
      · -- lookup with no signal: contradicts the `some false` result
        simp at h
      · rename_i tile hp
        by_cases ht : tile = ak
        · rw [if_pos ht] at h
          obtain ⟨hpos, hrest⟩ := ih pos pos' h
          refine ⟨hpos, fun d hd => ?_⟩
          rcases List.mem_cons.mp hd with rfl | hd
          · rw [hp]; rfl
          · exact hrest d hd
        · rw [if_neg ht] at h
          by_cases h1 : amt.1 ≠ 0
          · rw [if_pos h1] at h
            exfalso
            revert h
            split <;> intro h <;>
              exact cornerLoop_true_ne_some_false lv ak amt rest _
                (by rw [h])
          · rw [if_neg h1] at h
            by_cases h2 : amt.2 ≠ 0
            · rw [if_pos h2] at h
              exfalso
              revert h
              split <;> intro h <;>
                exact cornerLoop_true_ne_some_false lv ak amt rest _
                  (by rw [h])
            · rw [if_neg h2] at h
              simp at h

/-- A vertical sweep (`amount = (0, vy)`) whose corner X coordinates are all
within the logical screen bounds always produces a signal: it never changes
the X position, and lookups can only fail for out-of-range X. -/
theorem cornerLoop_vertical_isSome (lv : Levels) (ak : Bool) (vy : ℚ) :
    ∀ (cs : List (ℚ × ℚ)) (pos : ℚ × ℚ) (coll : Bool),
      (∀ c ∈ cs, 0 ≤ pos.1 + Player.adjustCorner c.1 * SIZE / 2 ∧
        pos.1 + Player.adjustCorner c.1 * SIZE / 2 < LOGICAL_SCREEN_WIDTH) →
      ((Player.cornerLoop lv ak (0, vy) cs pos coll).2).isSome = true := by
  intro cs
  induction cs with
  | nil => intro pos coll _; simp [Player.cornerLoop]
  | cons c rest ih =>
      intro pos coll hxs
      obtain ⟨hc0, hc1⟩ := hxs c (List.mem_cons_self c rest)
      obtain ⟨tile, hp⟩ := Option.isSome_iff_exists.mp
        ((get_from_position_isSome_iff lv _
          (pos.2 + Player.adjustCorner c.2 * SIZE / 2)).mpr ⟨hc0, hc1⟩)
      simp only [Player.cornerLoop, hp]
      by_cases ht : tile = ak
      · rw [if_pos ht]
        exact ih pos coll fun d hd => hxs d (List.mem_cons_of_mem c hd)
      · rw [if_neg ht]
        rw [if_neg (by simp)]
        by_cases h2 : vy ≠ 0
        · rw [if_pos (by simpa using h2)]
          split
          · exact ih _ true fun d hd => hxs d (List.mem_cons_of_mem c hd)
          · exact ih _ true fun d hd => hxs d (List.mem_cons_of_mem c hd)
        · rw [if_neg (by simpa using h2)]
          rfl

/-- The level grid used by the C10 counterexample: one level, all open except
the tile at flat index 4 (column 0/14 via wraparound, row 4). -/
def c10levels : Levels :=
  { tiles := (List.replicate 154 false).set 4 true, num_levels := 1,
    level_index := 0, x_offset := 0, limited_gem := none, full_gem := none }

/-- The C10 counterexample player: moving left near the right screen edge so
that only its trailing bottom-right corner overlaps the solid tile. -/
def c10player : Player :=
  { position := (14.125, 5), velocity := (-0.125, 0), air_kind := false,
    on_ground := false, cyote_time := 0,
    inputs_down := List.replicate 4 false,
    inputs_ready := List.replicate 4 false }

/-- The player state after the horizontal sweep of the C10 counterexample:
the collision snap `floor(14.2499975) + 1.0 + SIZE/2` pushed `position.x` to
`15.25`, outside the logical screen. -/
def c10snapped : Player :=
  { position := (61 / 4, 5), velocity := (-1 / 8, -1 / 128), air_kind := false,
    on_ground := false, cyote_time := 0,
    inputs_down := List.replicate 4 false,
    inputs_ready := List.replicate 4 false }

/-- If the horizontal sweep yields a signal and the vertical sweep yields
none, the tick's `.unwrap()` panics (`update` returns `none` in the model). -/
theorem update_none_of_vertical_none (p : Player) (lv : Levels) (q : Player)
    (c : Bool)
    (h1 : p.apply_gravity.move_by lv (p.apply_gravity.velocity.1, 0)
        = (q, some c))
    (h2 : (q.move_by lv (0, q.velocity.2)).2 = none) :
    p.update lv = none := by
  simp only [Player.update, h1, h2]

/-- The claim C10 asserts the vertical sweep succeeds whenever the horizontal
sweep does.  Here the horizontal sweep collides on its last probed corner and
snaps `position.x` to `15.25`, past the logical screen: the sweep still
returns `Some(true)`, but every vertical probe then has X out of range, the
vertical sweep returns `None`, and the `.unwrap()` panics. -/
theorem c10_counterexample :
    (c10player.apply_gravity.move_by c10levels
        (c10player.apply_gravity.velocity.1, 0)) = (c10snapped, some true) ∧
    ((c10snapped.move_by c10levels (0, c10snapped.velocity.2)).2 = none) ∧
    c10player.update c10levels = none := by
  have h1 : (c10player.apply_gravity.move_by c10levels
      (c10player.apply_gravity.velocity.1, 0)) = (c10snapped, some true) := by
    norm_num [c10player, c10levels, c10snapped, Player.apply_gravity,
      Player.gravity, Player.move_by, Player.cornerLoop, Player.CORNERS,
      Player.adjustCorner, SIZE, GRAVITY, UPS_SCALE, UPDATES_PER_SECOND,
      Levels.get_from_position, Levels.index_of_position, Levels.get,
      Levels.index_of, Levels.is_index_in_bounds, Levels.index_of_unchecked,
      LOGICAL_SCREEN_WIDTH, LOGICAL_SCREEN_HEIGHT, LEVEL_WIDTH, LEVEL_HEIGHT,
      Rat.floor, Int.toNat, List.getD, List.getElem?_set,
      List.getElem?_replicate]
  have h2 : ((c10snapped.move_by c10levels (0, c10snapped.velocity.2)).2
      = none) := by
    norm_num [c10snapped, c10levels, Player.move_by, Player.cornerLoop,
      Player.CORNERS, Player.adjustCorner, SIZE,
      Levels.get_from_position, Levels.index_of_position,
      LOGICAL_SCREEN_WIDTH, LOGICAL_SCREEN_HEIGHT]
  exact ⟨h1, h2, update_none_of_vertical_none _ _ _ _ h1 h2⟩

/-- Claim C10 (amended). Whenever the horizontal sweep
`move_by(levels, [velocity.x, 0])` returns `Some(false)` — i.e. succeeds
**without a collision snap** — the subsequent vertical sweep
`move_by(levels, [0, vy])` returns `Some` for any `vy`, so the `.unwrap()`
cannot panic on such ticks: a collision-free horizontal sweep leaves the
position unchanged with all four corner X coordinates inside the logical
screen bounds, lookups fail only for out-of-range X, and the vertical sweep
never changes any probe's X coordinate.  (When the horizontal sweep snaps,
the conclusion can fail — see the counterexample.) -/
theorem c10_vertical_some_after_clear_horizontal (lv : Levels) (p p' : Player)
    (vy : ℚ)
    (h : p.move_by lv (p.velocity.1, 0) = (p', some false)) :
    ((p'.move_by lv (0, vy)).2).isSome = true := by
  simp only [Player.move_by, Prod.mk.injEq] at h
  obtain ⟨hp', hr⟩ := h
  obtain ⟨hpos, hprobes⟩ := cornerLoop_some_false lv p.air_kind
    (p.velocity.1, 0) Player.CORNERS
    (p.position.1 + p.velocity.1, p.position.2 + 0) _
    (Prod.ext_iff.mpr ⟨rfl, hr⟩)
  have hppos : p'.position.1 = p.position.1 + p.velocity.1 := by
    have h0 := congrArg (fun q : Player => q.position.1) hp'
    simp only at h0
    have h1 := congrArg (fun q : ℚ × ℚ => q.1) hpos
    simp only at h1
    rw [← h0]
    exact h1
  simp only [Player.move_by]
  apply cornerLoop_vertical_isSome
  intro c hc
  have hx := (get_from_position_isSome_iff lv _ _).mp (hprobes c hc)
  simp only at hx
  rw [hppos, add_zero]
  exact hx

/-- A player floating in open tiles for the C10 witness. -/
def c10wit : Player :=
  { position := (15 / 2, 11 / 2), velocity := (1 / 8, 0), air_kind := false,
    on_ground := false, cyote_time := 0,
    inputs_down := List.replicate 4 false,
    inputs_ready := List.replicate 4 false }

/-- The C10 witness player after its collision-free horizontal sweep. -/
def c10witMoved : Player :=
  { position := (61 / 8, 11 / 2), velocity := (1 / 8, 0), air_kind := false,
    on_ground := false, cyote_time := 0,
    inputs_down := List.replicate 4 false,
    inputs_ready := List.replicate 4 false }

/-- Witness for C10 (amended): a player floating in open tiles moves
horizontally with no collision; the vertical sweep then yields a signal. -/
theorem c10_vertical_some_after_clear_horizontal_witness :
    c10wit.move_by c6state (c10wit.velocity.1, 0) = (c10witMoved, some false) ∧
    ((c10witMoved.move_by c6state (0, 5)).2).isSome = true := by
  have h : c10wit.move_by c6state (c10wit.velocity.1, 0)
      = (c10witMoved, some false) := by
    norm_num [c10wit, c10witMoved, c6state, Player.move_by, Player.cornerLoop,
      Player.CORNERS, Player.adjustCorner, SIZE,
      Levels.get_from_position, Levels.index_of_position, Levels.get,
      Levels.index_of, Levels.is_index_in_bounds, Levels.index_of_unchecked,
      LOGICAL_SCREEN_WIDTH, LOGICAL_SCREEN_HEIGHT, LEVEL_WIDTH, LEVEL_HEIGHT,
      Rat.floor, Int.toNat, List.getD, List.getElem?_set,
      List.getElem?_replicate]
  exact ⟨h, c10_vertical_some_after_clear_horizontal c6state c10wit
    c10witMoved 5 h⟩

/-- Claim C8 (confirmed). When a grounded player's polarity flip is rejected —
the tentatively shifted, polarity-toggled footprint reports static
intersection — the flip step of `update` returns the player with `air_kind`
and `position` exactly as they were before the flip attempt, and every field
other than the consumed `inputs_ready[2]` flag unchanged. -/
theorem c8_rejected_flip_preserves_state (p : Player) (lv : Levels)
    (hg : p.on_ground = true) (hr : p.inputs_ready.getD 2 false = true)
    (hint : (Player.flipShifted p).is_intersecting lv = true) :
    p.flipStep lv = { p with inputs_ready := p.inputs_ready.set 2 false } := by
  simp only [Player.flipStep]
  rw [if_pos ⟨hg, hr⟩, if_pos hint]
  obtain ⟨pos, vel, ak, og, ct, idn, ird⟩ := p
  cases ak <;> simp [Player.flipShifted]

/-- The C8 witness player: grounded, flip input ready, normal polarity, in a
grid whose open tiles all block the flipped polarity. -/
def c8player : Player :=
  { position := (7, 5), velocity := (0, 0), air_kind := false,
    on_ground := true, cyote_time := 0,
    inputs_down := [false, false, true, false],
    inputs_ready := [false, false, true, false] }

/-- Witness for C8 at a concrete state: the flip of `c8player` is rejected
(in the all-open grid every tile blocks the inverted polarity) and the flip
step only consumes `inputs_ready[2]`. -/
theorem c8_rejected_flip_preserves_state_witness :
    c8player.on_ground = true ∧ c8player.inputs_ready.getD 2 false = true ∧
    (Player.flipShifted c8player).is_intersecting c6state = true ∧
    c8player.flipStep c6state
      = { c8player with inputs_ready := c8player.inputs_ready.set 2 false } := by
  have hint : (Player.flipShifted c8player).is_intersecting c6state = true := by
    norm_num [c8player, c6state, Player.flipShifted, Player.is_intersecting,
      Player.move_by, Player.cornerLoop, Player.CORNERS, Player.adjustCorner,
      SIZE, Levels.get_from_position, Levels.index_of_position, Levels.get,
      Levels.index_of, Levels.is_index_in_bounds, Levels.index_of_unchecked,
      LOGICAL_SCREEN_WIDTH, LOGICAL_SCREEN_HEIGHT, LEVEL_WIDTH, LEVEL_HEIGHT,
      Rat.floor, Int.toNat, List.getD, List.getElem?_replicate]
  exact ⟨rfl, rfl, hint,
    c8_rejected_flip_preserves_state c8player c6state rfl rfl hint⟩

/-- The `enum Editor` of `main.rs`. -/
inductive Editor where
  | Limited (last_selected : Option Nat)
  | Full
deriving DecidableEq, Repr

/-- `levels.tiles[tile_index] ^= true` in `main.rs` (Rust panics when
`tile_index` is out of bounds; `List.set`/`getD` make the model total, and
an out-of-bounds flip is a no-op, which keeps every revert equation exact). -/
def flipTile (g : Levels) (i : Nat) : Levels :=
  { g with tiles := g.tiles.set i (! g.tiles.getD i false) }

/-- One gem test of the loop heading `Editor::toggle_tile_index`:
`tile_index == gem_index || tile_index == gem_index - 1` with `||`
short-circuit; the `usize` subtraction `gem_index - 1` underflows when
`gem_index = 0`, modelled as `none` (checked-arithmetic panic). -/
def gemRefuse (tile_index gi : Nat) : Option Bool :=
  if tile_index = gi then some true
  else if gi = 0 then none
  else if tile_index = gi - 1 then some true
  else some false

/-- The `for gem in [levels.limited_gem, levels.full_gem]` loop of
`Editor::toggle_tile_index`: `some true` = refuse, `some false` = fall
through, `none` = underflow panic. -/
def gemCheck (tile_index : Nat) : List (Option Nat) → Option Bool
  | [] => some false
  | none :: rest => gemCheck tile_index rest
  | some gi :: rest =>
      match gemRefuse tile_index gi with
      | none => none
      | some true => some true
      | some false => gemCheck tile_index rest

/-- `Editor::toggle_tile_index` in `main.rs`.  The result is the returned
commit flag together with the updated editor and levels (the `&mut Player`
is only used for zero-displacement intersection tests, which leave it
unchanged); `none` models the `gem_index - 1` underflow panic. -/
def limitedRefuses (ed : Editor) (tile_index : Nat) (levels : Levels) : Bool :=
  match ed with
  | .Limited _ =>
      decide (levels.level_index = levels.num_levels - 1) ||
        decide (tile_index < LEVEL_HEIGHT)
  | .Full => false

def toggle_tile_index (ed : Editor) (tile_index : Nat) (levels : Levels)
    (player : Player) : Option (Bool × Editor × Levels) :=
  match gemCheck tile_index [levels.limited_gem, levels.full_gem] with
  | none => none
  | some true => some (false, ed, levels)
  | some false =>
    if limitedRefuses ed tile_index levels then some (false, ed, levels)
    else
      let levels1 := flipTile levels tile_index
      if player.is_intersecting levels1 then
        some (false, ed, flipTile levels1 tile_index)
      else
        match ed with
        | .Limited last_selected =>
            if last_selected = some tile_index then
              some (false, .Limited none, levels1)
            else match last_selected with
              | some prev =>
                  let levels2 := flipTile levels1 prev
                  if player.is_intersecting levels2 then
                    some (false, .Limited (some prev),
                      flipTile (flipTile levels2 tile_index) prev)
                  else some (false, .Limited (some tile_index), levels2)
              | none => some (false, .Limited (some tile_index), levels1)
        | .Full => some (true, .Full, levels1)

theorem getD_set_self (t : List Bool) (i : Nat) (a d : Bool) (h : i < t.length) :
    (t.set i a).getD i d = a := by
  induction t generalizing i with
  | nil => simp at h
  | cons hd tl ih =>
      cases i with
      | zero => rfl
      | succ j => simpa using ih j (by simpa using h)

theorem set_getD_self (t : List Bool) (i : Nat) (d : Bool) :
    t.set i (t.getD i d) = t := by
  induction t generalizing i with
  | nil => rfl
  | cons hd tl ih =>
      cases i with
      | zero => rfl
      | succ j => simpa using ih j

/-- Flipping the same tile twice restores the grid exactly. -/
theorem flipTile_flipTile (g : Levels) (i : Nat) :
    flipTile (flipTile g i) i = g := by
  by_cases hi : i < g.tiles.length
  · simp only [flipTile, getD_set_self _ _ _ _ hi, Bool.not_not, List.set_set]
    rw [set_getD_self]
  · have hle : g.tiles.length ≤ i := le_of_not_lt hi
    simp only [flipTile, List.set_eq_of_length_le hle]

/-- Claim C7 (confirmed). `Editor::toggle_tile_index` flips the boolean at
`tile_index`, and when the flip makes the player body intersect solid
geometry (static intersection test) the flip is reverted, the call returns
`false`, and the levels come back exactly as before the call.  The call
returns `true` (commit to storage) only in `Full` mode: `Limited` edits are
never reported as committed even when a boolean was mutated. -/
theorem c7_toggle_commit_only_full_and_revert (ed : Editor) (ti : Nat)
    (lv : Levels) (p : Player) :
    (∀ b ed1 lv1, toggle_tile_index ed ti lv p = some (b, ed1, lv1) →
      b = true → ed = .Full) ∧
    (gemCheck ti [lv.limited_gem, lv.full_gem] = some false →
      limitedRefuses ed ti lv = false →
      p.is_intersecting (flipTile lv ti) = true →
      toggle_tile_index ed ti lv p = some (false, ed, lv)) := by
  constructor
  · intro b ed1 lv1 h hb
    subst hb
    cases ed with
    | Full => rfl
    | Limited ls =>
        exfalso
        rcases hgc : gemCheck ti [lv.limited_gem, lv.full_gem] with _ | b0
        · simp [toggle_tile_index, hgc] at h
        · cases b0 with
          | true => simp [toggle_tile_index, hgc] at h
          | false =>
              simp only [toggle_tile_index, hgc] at h
              by_cases hlr : limitedRefuses (.Limited ls) ti lv
              · rw [if_pos hlr] at h
                simp at h
              · rw [if_neg hlr] at h
                by_cases hint : p.is_intersecting (flipTile lv ti)
                · rw [if_pos hint] at h
                  simp at h
                · rw [if_neg hint] at h
                  revert h
                  split
                  · intro h; simp at h
                  · split
                    · split <;> intro h <;> simp at h
                    · intro h; simp at h
  · intro hgc hlr hint
    simp only [toggle_tile_index, hgc]
    rw [if_neg (by simp [hlr]), if_pos hint, flipTile_flipTile]

/-- The player used in the C7 and C9 witnesses: inverted polarity, so that
in an all-open grid every tile blocks it and any flip intersects. -/
def c7player : Player :=
  { position := (7, 5), velocity := (0, 0), air_kind := true,
    on_ground := false, cyote_time := 0,
    inputs_down := List.replicate 4 false,
    inputs_ready := List.replicate 4 false }

/-- Witness for C7 at a concrete call: a `Full`-mode toggle of tile 50 is
refused because the intersection test fires, and the grid is returned
byte-for-byte unchanged. -/
theorem c7_toggle_commit_only_full_and_revert_witness :
    gemCheck 50 [c6state.limited_gem, c6state.full_gem] = some false ∧
    limitedRefuses .Full 50 c6state = false ∧
    c7player.is_intersecting (flipTile c6state 50) = true ∧
    toggle_tile_index .Full 50 c6state c7player = some (false, .Full, c6state) := by
  have hint : c7player.is_intersecting (flipTile c6state 50) = true := by
    norm_num [c7player, c6state, flipTile, Player.is_intersecting,
      Player.move_by, Player.cornerLoop, Player.CORNERS, Player.adjustCorner,
      SIZE, Levels.get_from_position, Levels.index_of_position, Levels.get,
      Levels.index_of, Levels.is_index_in_bounds, Levels.index_of_unchecked,
      LOGICAL_SCREEN_WIDTH, LOGICAL_SCREEN_HEIGHT, LEVEL_WIDTH, LEVEL_HEIGHT,
      Rat.floor, Int.toNat, List.getD, List.getElem?_set,
      List.getElem?_replicate]
  exact ⟨rfl, rfl, hint,
    (c7_toggle_commit_only_full_and_revert .Full 50 c6state c7player).2
      rfl rfl hint⟩

theorem gemRefuse_ne_none (ti gi : Nat) (h : 1 ≤ gi) :
    gemRefuse ti gi ≠ none := by
  simp only [gemRefuse]
  split
  · simp
  · rw [if_neg (by omega)]
    split <;> simp

theorem gemCheck_ne_none (ti : Nat) (gems : List (Option Nat))
    (h : ∀ j, some j ∈ gems → 1 ≤ j) : gemCheck ti gems ≠ none := by
  induction gems with
  | nil => simp [gemCheck]
  | cons g rest ih =>
      cases g with
      | none =>
          simpa [gemCheck] using ih fun j hj => h j (List.mem_cons_of_mem _ hj)
      | some gi =>
          have hgi : 1 ≤ gi := h gi (List.mem_cons_self _ _)
          simp only [gemCheck]
          rcases hgr : gemRefuse ti gi with _ | b
          · exact absurd hgr (gemRefuse_ne_none ti gi hgi)
          · cases b with
            | true => simp
            | false => exact ih fun j hj => h j (List.mem_cons_of_mem _ hj)

/-- The counterexample grid for C9: the limited gem sits at flat index 0. -/
def c9levels : Levels :=
  { tiles := List.replicate 154 false, num_levels := 1, level_index := 0,
    x_offset := 0, limited_gem := some 0, full_gem := none }

/-- The claim C9 says every `toggle_tile_index` call on a grid with a gem at
index 0 evaluates the underflowing `gem_index - 1`.  Not with
`tile_index = 0`: the `||` short-circuits on `tile_index == gem_index` and
the call refuses normally instead of panicking. -/
theorem c9_counterexample :
    c9levels.limited_gem = some 0 ∧
    toggle_tile_index .Full 0 c9levels c7player
      = some (false, .Full, c9levels) := by
  exact ⟨rfl, rfl⟩

/-- Claim C9 (amended). For every grid whose `limited_gem` is `Some(0)` and
every `tile_index` other than 0, `Editor::toggle_tile_index` evaluates
`gem_index - 1` on an unsigned zero, which underflows (a panic under checked
arithmetic) instead of refusing; the same happens via `full_gem = Some(0)`
when the limited check falls through, and the gem-adjacency refusal is
well-defined (never panics) exactly when every set gem index is at least 1.
(When `tile_index` equals the zero gem index itself, `||` short-circuits and
the call refuses without evaluating the subtraction.) -/
theorem c9_gem_zero_underflow (ed : Editor) (ti : Nat) (lv : Levels)
    (p : Player) :
    (lv.limited_gem = some 0 → ti ≠ 0 →
      toggle_tile_index ed ti lv p = none) ∧
    (lv.limited_gem = none → lv.full_gem = some 0 → ti ≠ 0 →
      toggle_tile_index ed ti lv p = none) ∧
    ((∀ j, lv.limited_gem = some j → 1 ≤ j) →
     (∀ j, lv.full_gem = some j → 1 ≤ j) →
      toggle_tile_index ed ti lv p ≠ none) := by
  refine ⟨fun hl hti => ?_, fun hl hf hti => ?_, fun h1 h2 => ?_⟩
  · simp [toggle_tile_index, hl, gemCheck, gemRefuse, hti]
  · simp [toggle_tile_index, hl, hf, gemCheck, gemRefuse, hti]
  · have hgc : gemCheck ti [lv.limited_gem, lv.full_gem] ≠ none := by
      apply gemCheck_ne_none
      intro j hj
      simp only [List.mem_cons, List.not_mem_nil, or_false] at hj
      rcases hj with hj | hj
      · exact h1 j hj.symm
      · exact h2 j hj.symm
    rcases hgcv : gemCheck ti [lv.limited_gem, lv.full_gem] with _ | b
    · exact absurd hgcv hgc
    · cases b with
      | true => simp [toggle_tile_index, hgcv]
      | false =>
          simp only [toggle_tile_index, hgcv]
          split
          · simp
          · split
            · simp
            · split
              · split
                · simp
                · split
                  · split <;> simp
                  · simp
              · simp

/-- Witness for C9 (amended): toggling tile 5 on the gem-at-0 grid panics,
and on a grid whose gems are at indices ≥ 1 the call never panics. -/
theorem c9_gem_zero_underflow_witness :
    c9levels.limited_gem = some 0 ∧ (5 : Nat) ≠ 0 ∧
    toggle_tile_index .Full 5 c9levels c7player = none ∧
    toggle_tile_index .Full 5
      { c9levels with limited_gem := some 3, full_gem := some 20 }
      c7player ≠ none := by
  refine ⟨rfl, by decide, ?_, ?_⟩
  · exact (c9_gem_zero_underflow .Full 5 c9levels c7player).1 rfl (by decide)
  · exact (c9_gem_zero_underflow .Full 5 _ c7player).2.2
      (fun j hj => by simp at hj; omega)
      (fun j hj => by simp at hj; omega)

/-- `LEVEL_TILES` in the `FromStr` impl of `level.rs`. -/
def LEVEL_TILES : Nat := (LEVEL_WIDTH - 1) * LEVEL_HEIGHT

/-- The character the `Display` impl of `level.rs` writes for flat index
`tile_index`: the gem markers override the boolean rendering, `limited_gem`
first. -/
def tileChar (g : Levels) (tile_index : Nat) : Char :=
  if g.limited_gem = some tile_index then 'e'
  else if g.full_gem = some tile_index then 'E'
  else if g.tiles.getD tile_index false then 'x' else ' '

/-- One row of the `Display` impl: `for x in 0..(LEVEL_WIDTH - 1) *
num_levels`, the character of `x * LEVEL_HEIGHT + y`. -/
def serializeRow (g : Levels) (y : Nat) : List Char :=
  (List.range ((LEVEL_WIDTH - 1) * g.num_levels)).map
    (fun x => tileChar g (x * LEVEL_HEIGHT + y))

/-- The `Display` impl of `level.rs`: rows for `y` from `LEVEL_HEIGHT - 1`
down to 0, each followed by the terminator `|` and a newline. -/
def serialize (g : Levels) : List Char :=
  ((List.range LEVEL_HEIGHT).reverse).flatMap
    (fun y => serializeRow g y ++ ['|', '\n'])

/-- The tile-character match inside the parsing loop of `FromStr`:
`idx` is `tiles.len()` at push time (the index recorded for a gem). -/
def parseTileChar (c : Char) (idx : Nat) (lg fg : Option Nat) :
    Except ParseLevelError (Bool × Option Nat × Option Nat) :=
  if c = ' ' then .ok (false, lg, fg)
  else if c = 'x' then .ok (true, lg, fg)
  else if c = 'e' then
    match lg with
    | none => .ok (false, some idx, fg)
    | some _ => .error (.DuplicateGem 'e')
  else if c = 'E' then
    match fg with
    | none => .ok (false, lg, some idx)
    | some _ => .error (.DuplicateGem 'E')
  else .error (.InvalidTileCharacter c)

/-- The `for (i, line) in lines.iter_mut().enumerate().rev()` body of one
parsing round: takes the enumerated lines **in processing order** (reversed),
pops one character from each, and pushes the parsed tiles.  Returns the
remaining line tails (in processing order) with the updated accumulator. -/
def parseRoundAux :
    List (Nat × List Char) → List Bool → Option Nat → Option Nat →
    Except ParseLevelError
      (List (List Char) × List Bool × Option Nat × Option Nat)
  | [], tiles, lg, fg => .ok ([], tiles, lg, fg)
  | (i, line) :: rest, tiles, lg, fg =>
      match line with
      | [] => .error (.LineEndsEarly i)
      | c :: tail =>
          match parseTileChar c tiles.length lg fg with
          | .error e => .error e
          | .ok (t, lg1, fg1) =>
              match parseRoundAux rest (tiles ++ [t]) lg1 fg1 with
              | .error e => .error e
              | .ok (tails, tiles1, lg2, fg2) =>
                  .ok (tail :: tails, tiles1, lg2, fg2)

/-- One full round of the parsing loop, restoring the original line order of
the remaining tails. -/
def parseRound (lines : List (List Char)) (tiles : List Bool)
    (lg fg : Option Nat) :
    Except ParseLevelError
      (List (List Char) × List Bool × Option Nat × Option Nat) :=
  match parseRoundAux lines.enum.reverse tiles lg fg with
  | .error e => .error e
  | .ok (revTails, tiles1, lg1, fg1) => .ok (revTails.reverse, tiles1, lg1, fg1)

/-- The terminator check of `FromStr` (`for (i, mut line) in
lines.into_iter().enumerate()`): every remaining line must be exactly
`"|"`. -/
def checkTerminators : List (Nat × List Char) → Except ParseLevelError Unit
  | [] => .ok ()
  | (i, line) :: rest =>
      match line with
      | [] => .error (.LineEndsEarly i)
      | c :: tail =>
          if c = '|' then
            if tail.isEmpty then checkTerminators rest
            else .error (.InvalidTileCharacter '|')
          else .error (.InvalidEndingCharacter c)

/-- The `loop` of `FromStr`: rounds until `lines[0]` peeks the terminator.
The fuel argument only bounds the recursion: every round consumes one
character of line 0, so the fuel passed by `from_str` (input length + 1) can
never run out; the out-of-fuel value is arbitrary. -/
def parseLoop :
    Nat → List (List Char) → List Bool → Option Nat → Option Nat →
    Except ParseLevelError (List Bool × Option Nat × Option Nat)
  | 0, _, _, _, _ => .error .InvalidHeight
  | fuel + 1, lines, tiles, lg, fg =>
      match parseRound lines tiles lg fg with
      | .error e => .error e
      | .ok (tails, tiles1, lg1, fg1) =>
          if (tails.headD []).head? = some '|' then
            match checkTerminators tails.enum with
            | .error e => .error e
            | .ok _ => .ok (tiles1, lg1, fg1)
          else parseLoop fuel tails tiles1 lg1 fg1

/-- Split on `'\n'`, keeping a (possibly empty) final piece. -/
def splitNl : List Char → List (List Char)
  | [] => [[]]
  | c :: rest =>
      if c = '\n' then [] :: splitNl rest
      else
        match splitNl rest with
        | [] => [[c]]
        | l :: ls => (c :: l) :: ls

/-- Strip one trailing carriage return (the `\r\n` handling of
`str::lines`). -/
def stripCr (l : List Char) : List Char :=
  if l.getLast? = some '\r' then l.dropLast else l

/-- Rust's `str::lines`: split at `'\n'`, strip a `'\r'` before each split
point, drop the final empty piece produced by a trailing newline, keep a
final piece without a line ending as is. -/
def rustLines (s : List Char) : List (List Char) :=
  if s = [] then []
  else
    let parts := splitNl s
    parts.dropLast.map stripCr ++
      match parts.getLast? with
      | some [] => []
      | some l => [l]
      | none => []

/-- The `FromStr` impl of `level.rs`. -/
def from_str (s : List Char) : Except ParseLevelError Levels :=
  let lines := rustLines s
  if lines.length = LEVEL_HEIGHT then
    match parseLoop (s.length + 1) lines [] none none with
    | .error e => .error e
    | .ok (tiles, lg, fg) =>
        if tiles.length % LEVEL_TILES = 0 then
          .ok { tiles := tiles, num_levels := tiles.length / LEVEL_TILES,
                level_index := 0, x_offset := 0,
                limited_gem := lg, full_gem := fg }
        else .error .InvalidWidth
  else .error .InvalidHeight

/-- The tile value the parser reconstructs at flat index `j`: the stored
boolean, except that a gem marker serializes over it and parses back as
open. -/
def parsedTile (g : Levels) (j : Nat) : Bool :=
  if g.limited_gem = some j then false
  else if g.full_gem = some j then false
  else g.tiles.getD j false

/-- The limited-gem accumulator after the first `m` characters. -/
def lgAt (g : Levels) (m : Nat) : Option Nat :=
  match g.limited_gem with
  | some j => if j < m then some j else none
  | none => none

/-- The full-gem accumulator after the first `m` characters. -/
def fgAt (g : Levels) (m : Nat) : Option Nat :=
  match g.full_gem with
  | some j => if j < m then some j else none
  | none => none

/-- The parsed tiles for flat indices `[m, m + k)`. -/
def parsedRange (g : Levels) (m k : Nat) : List Bool :=
  (List.range' m k).map (fun j => parsedTile g j)

/-- The suffix of a serialized row `y` from column `x0` on, with its
terminator. -/
def serTail (g : Levels) (x0 y : Nat) : List Char :=
  (List.range' x0 ((LEVEL_WIDTH - 1) * g.num_levels - x0)).map
    (fun x => tileChar g (x * LEVEL_HEIGHT + y)) ++ ['|']

/-- The full line state after `x0` parsing rounds. -/
def linesAt (g : Levels) (x0 : Nat) : List (List Char) :=
  ((List.range LEVEL_HEIGHT).reverse).map (fun y => serTail g x0 y)

/-- The lines of a processing list start with the consecutive tile
characters from flat index `m` on. -/
def HeadsFrom (g : Levels) : List (Nat × List Char) → Nat → Prop
  | [], _ => True
  | (_, l) :: rest, m =>
      (∃ tl, l = tileChar g m :: tl) ∧ HeadsFrom g rest (m + 1)

theorem parseTileChar_space (idx : Nat) (lg fg : Option Nat) :
    parseTileChar ' ' idx lg fg = .ok (false, lg, fg) := rfl

theorem parseTileChar_x (idx : Nat) (lg fg : Option Nat) :
    parseTileChar 'x' idx lg fg = .ok (true, lg, fg) := rfl

theorem parseTileChar_e (idx : Nat) (fg : Option Nat) :
    parseTileChar 'e' idx none fg = .ok (false, some idx, fg) := rfl

theorem parseTileChar_E (idx : Nat) (lg : Option Nat) :
    parseTileChar 'E' idx lg none = .ok (false, lg, some idx) := rfl

/-- One character of a serialized grid parses back to the expected tile and
advances the gem accumulators from `j` to `j + 1`. -/
theorem parseTileChar_tileChar (g : Levels) (j : Nat)
    (hne : ∀ a b, g.limited_gem = some a → g.full_gem = some b → a ≠ b) :
    parseTileChar (tileChar g j) j (lgAt g j) (fgAt g j)
      = .ok (parsedTile g j, lgAt g (j + 1), fgAt g (j + 1)) := by
  by_cases hl : g.limited_gem = some j
  · have hf : ¬g.full_gem = some j := fun hf => hne j j hl hf rfl
    have h1 : tileChar g j = 'e' := by simp [tileChar, hl]
    have h2 : lgAt g j = none := by simp [lgAt, hl]
    rw [h1, h2, parseTileChar_e]
    have h3 : parsedTile g j = false := by simp [parsedTile, hl]
    have h4 : lgAt g (j + 1) = some j := by simp [lgAt, hl]
    have h5 : fgAt g (j + 1) = fgAt g j := by
      cases hfg : g.full_gem with
      | none => simp [fgAt, hfg]
      | some b =>
          have hb : b ≠ j := fun hb => hf (hb ▸ hfg)
          have : (b < j + 1) = (b < j) := by
            apply propext; constructor <;> intro <;> omega
          simp [fgAt, hfg, this]
    rw [h3, h4, h5]
  · by_cases hfj : g.full_gem = some j
    · have h1 : tileChar g j = 'E' := by simp [tileChar, hl, hfj]
      have h2 : fgAt g j = none := by simp [fgAt, hfj]
      rw [h1, h2, parseTileChar_E]
      have h3 : parsedTile g j = false := by simp [parsedTile, hl, hfj]
      have h4 : fgAt g (j + 1) = some j := by simp [fgAt, hfj]
      have h5 : lgAt g (j + 1) = lgAt g j := by
        cases hlg : g.limited_gem with
        | none => simp [lgAt, hlg]
        | some b =>
            have hb : b ≠ j := fun hb => hl (hb ▸ hlg)
            have : (b < j + 1) = (b < j) := by
              apply propext; constructor <;> intro <;> omega
            simp [lgAt, hlg, this]
      rw [h3, h4, h5]
    · have h5 : lgAt g (j + 1) = lgAt g j := by
        cases hlg : g.limited_gem with
        | none => simp [lgAt, hlg]
        | some b =>
            have hb : b ≠ j := fun hb => hl (hb ▸ hlg)
            have : (b < j + 1) = (b < j) := by
              apply propext; constructor <;> intro <;> omega
            simp [lgAt, hlg, this]
      have h6 : fgAt g (j + 1) = fgAt g j := by
        cases hfg : g.full_gem with
        | none => simp [fgAt, hfg]
        | some b =>
            have hb : b ≠ j := fun hb => hfj (hb ▸ hfg)
            have : (b < j + 1) = (b < j) := by
              apply propext; constructor <;> intro <;> omega
            simp [fgAt, hfg, this]
      have h3 : parsedTile g j = g.tiles.getD j false := by
        simp [parsedTile, hl, hfj]
      by_cases ht : g.tiles.getD j false = true
      · have h1 : tileChar g j = 'x' := by
          simp only [tileChar]
          rw [if_neg hl, if_neg hfj, if_pos ht]
        rw [h1, parseTileChar_x, h3, h5, h6, ht]
      · have htf : g.tiles.getD j false = false := by
          simpa using ht
        have h1 : tileChar g j = ' ' := by
          simp only [tileChar]
          rw [if_neg hl, if_neg hfj, if_neg ht]
        rw [h1, parseTileChar_space, h3, h5, h6, htf]

/-- A parsing round over lines whose heads are the consecutive tile
characters from index `m` pops exactly those characters and extends the
accumulators accordingly. -/
theorem parseRoundAux_ok (g : Levels)
    (hne : ∀ a b, g.limited_gem = some a → g.full_gem = some b → a ≠ b) :
    ∀ (ps : List (Nat × List Char)) (m : Nat) (tiles : List Bool),
      tiles.length = m → HeadsFrom g ps m →
      parseRoundAux ps tiles (lgAt g m) (fgAt g m)
        = .ok (ps.map (fun pr => pr.2.tail),
               tiles ++ parsedRange g m ps.length,
               lgAt g (m + ps.length), fgAt g (m + ps.length)) := by
  intro ps
  induction ps with
  | nil =>
      intro m tiles hlen _
      simp [parseRoundAux, parsedRange]
  | cons pr rest ih =>
      rintro m tiles hlen hheads
      obtain ⟨i, line⟩ := pr
      obtain ⟨⟨tl, hhd⟩, hrest⟩ := hheads
      subst hhd
      simp only [parseRoundAux, hlen, parseTileChar_tileChar g m hne]
      rw [ih (m + 1) (tiles ++ [parsedTile g m]) (by simp [hlen]) hrest]
      have harith : m + 1 + rest.length = m + (rest.length + 1) := by omega
      have hrange : parsedRange g m (rest.length + 1)
          = parsedTile g m :: parsedRange g (m + 1) rest.length := by
        simp [parsedRange, List.range'_succ]
      simp [harith, hrange]

theorem serTail_cons (g : Levels) (x0 y : Nat)
    (h : x0 < (LEVEL_WIDTH - 1) * g.num_levels) :
    serTail g x0 y
      = tileChar g (x0 * LEVEL_HEIGHT + y) :: serTail g (x0 + 1) y := by
  simp only [serTail]
  rw [show (LEVEL_WIDTH - 1) * g.num_levels - x0
      = ((LEVEL_WIDTH - 1) * g.num_levels - (x0 + 1)) + 1 by omega]
  rw [List.range'_succ]
  simp

theorem serTail_tail (g : Levels) (x0 y : Nat)
    (h : x0 < (LEVEL_WIDTH - 1) * g.num_levels) :
    (serTail g x0 y).tail = serTail g (x0 + 1) y := by
  rw [serTail_cons g x0 y h]
  rfl

theorem serTail_end (g : Levels) (y : Nat) :
    serTail g ((LEVEL_WIDTH - 1) * g.num_levels) y = ['|'] := by
  simp [serTail, Nat.sub_self]

theorem linesAt_explicit (g : Levels) (x0 : Nat) :
    linesAt g x0
      = [serTail g x0 10, serTail g x0 9, serTail g x0 8, serTail g x0 7,
         serTail g x0 6, serTail g x0 5, serTail g x0 4, serTail g x0 3,
         serTail g x0 2, serTail g x0 1, serTail g x0 0] := rfl

theorem headsFrom_linesAt (g : Levels) (x0 : Nat)
    (h : x0 < (LEVEL_WIDTH - 1) * g.num_levels) :
    HeadsFrom g ((linesAt g x0).enum.reverse) (x0 * LEVEL_HEIGHT) := by
  have he : (linesAt g x0).enum.reverse
      = [(10, serTail g x0 0), (9, serTail g x0 1), (8, serTail g x0 2),
         (7, serTail g x0 3), (6, serTail g x0 4), (5, serTail g x0 5),
         (4, serTail g x0 6), (3, serTail g x0 7), (2, serTail g x0 8),
         (1, serTail g x0 9), (0, serTail g x0 10)] := rfl
  rw [he]
  exact ⟨⟨_, serTail_cons g x0 0 h⟩, ⟨_, serTail_cons g x0 1 h⟩,
    ⟨_, serTail_cons g x0 2 h⟩, ⟨_, serTail_cons g x0 3 h⟩,
    ⟨_, serTail_cons g x0 4 h⟩, ⟨_, serTail_cons g x0 5 h⟩,
    ⟨_, serTail_cons g x0 6 h⟩, ⟨_, serTail_cons g x0 7 h⟩,
    ⟨_, serTail_cons g x0 8 h⟩, ⟨_, serTail_cons g x0 9 h⟩,
    ⟨_, serTail_cons g x0 10 h⟩, trivial⟩

/-- One full round at line state `x0` advances to line state `x0 + 1`. -/
theorem parseRound_linesAt (g : Levels)
    (hne : ∀ a b, g.limited_gem = some a → g.full_gem = some b → a ≠ b)
    (x0 : Nat) (tiles : List Bool)
    (h : x0 < (LEVEL_WIDTH - 1) * g.num_levels)
    (hlen : tiles.length = x0 * LEVEL_HEIGHT) :
    parseRound (linesAt g x0) tiles (lgAt g (x0 * LEVEL_HEIGHT))
        (fgAt g (x0 * LEVEL_HEIGHT))
      = .ok (linesAt g (x0 + 1),
             tiles ++ parsedRange g (x0 * LEVEL_HEIGHT) LEVEL_HEIGHT,
             lgAt g ((x0 + 1) * LEVEL_HEIGHT),
             fgAt g ((x0 + 1) * LEVEL_HEIGHT)) := by
  simp only [parseRound]
  rw [parseRoundAux_ok g hne _ (x0 * LEVEL_HEIGHT) tiles hlen
    (headsFrom_linesAt g x0 h)]
  dsimp only
  have hlen11 : ((linesAt g x0).enum.reverse).length = LEVEL_HEIGHT := rfl
  have htails : (((linesAt g x0).enum.reverse).map (fun pr => pr.2.tail)).reverse
      = linesAt g (x0 + 1) := by
    show [(serTail g x0 10).tail, (serTail g x0 9).tail, (serTail g x0 8).tail,
          (serTail g x0 7).tail, (serTail g x0 6).tail, (serTail g x0 5).tail,
          (serTail g x0 4).tail, (serTail g x0 3).tail, (serTail g x0 2).tail,
          (serTail g x0 1).tail, (serTail g x0 0).tail] = linesAt g (x0 + 1)
    rw [serTail_tail g x0 0 h, serTail_tail g x0 1 h, serTail_tail g x0 2 h,
      serTail_tail g x0 3 h, serTail_tail g x0 4 h, serTail_tail g x0 5 h,
      serTail_tail g x0 6 h, serTail_tail g x0 7 h, serTail_tail g x0 8 h,
      serTail_tail g x0 9 h, serTail_tail g x0 10 h]
    rfl
  rw [hlen11, htails]
  have harith : x0 * LEVEL_HEIGHT + LEVEL_HEIGHT = (x0 + 1) * LEVEL_HEIGHT := by
    ring
  rw [harith]

theorem tileChar_ne_pipe (g : Levels) (j : Nat) : tileChar g j ≠ '|' := by
  simp only [tileChar]
  split
  · decide
  · split
    · decide
    · split <;> decide

theorem linesAt_full (g : Levels) :
    linesAt g ((LEVEL_WIDTH - 1) * g.num_levels)
      = List.replicate LEVEL_HEIGHT ['|'] := by
  rw [linesAt_explicit]
  simp only [serTail_end]
  rfl

theorem checkTerminators_full :
    checkTerminators ((List.replicate LEVEL_HEIGHT (['|'] : List Char)).enum)
      = .ok () := rfl

theorem parsedRange_length (g : Levels) (m k : Nat) :
    (parsedRange g m k).length = k := by
  simp [parsedRange]

theorem parsedRange_append (g : Levels) (m a b : Nat) :
    parsedRange g m a ++ parsedRange g (m + a) b = parsedRange g m (a + b) := by
  simp only [parsedRange, ← List.map_append]
  rw [show m + a = m + 1 * a by omega, List.range'_append, Nat.add_comm]

/-- Running the parsing loop from line state `x0` with `k = W - x0` rounds
left consumes the whole remaining grid and stops at the terminators. -/
theorem parseLoop_linesAt (g : Levels)
    (hne : ∀ a b, g.limited_gem = some a → g.full_gem = some b → a ≠ b) :
    ∀ (k fuel x0 : Nat) (tiles : List Bool),
      (LEVEL_WIDTH - 1) * g.num_levels = x0 + k → 0 < k → k ≤ fuel →
      tiles.length = x0 * LEVEL_HEIGHT →
      parseLoop fuel (linesAt g x0) tiles (lgAt g (x0 * LEVEL_HEIGHT))
          (fgAt g (x0 * LEVEL_HEIGHT))
        = .ok (tiles ++ parsedRange g (x0 * LEVEL_HEIGHT) (k * LEVEL_HEIGHT),
               lgAt g (((LEVEL_WIDTH - 1) * g.num_levels) * LEVEL_HEIGHT),
               fgAt g (((LEVEL_WIDTH - 1) * g.num_levels) * LEVEL_HEIGHT)) := by
  intro k
  induction k with
  | zero => omega
  | succ k ih =>
      intro fuel x0 tiles hW _ hfuel hlen
      obtain ⟨f, rfl⟩ : ∃ f, fuel = f + 1 := ⟨fuel - 1, by omega⟩
      have hx0 : x0 < (LEVEL_WIDTH - 1) * g.num_levels := by omega
      simp only [parseLoop]
      rw [parseRound_linesAt g hne x0 tiles hx0 hlen]
      by_cases hk : k = 0
      · subst hk
        have hWx : (LEVEL_WIDTH - 1) * g.num_levels = x0 + 1 := by omega
        rw [show linesAt g (x0 + 1) = List.replicate LEVEL_HEIGHT ['|'] from by
          rw [← hWx]; exact linesAt_full g]
        dsimp only
        have hpeek : (((List.replicate LEVEL_HEIGHT
            (['|'] : List Char)).headD []).head? : Option Char)
            = some '|' := rfl
        rw [if_pos hpeek, checkTerminators_full]
        rw [hWx]
        rfl
      · dsimp only
        rw [if_neg (by
          rw [linesAt_explicit]
          dsimp only [List.headD]
          rw [serTail_cons g (x0 + 1) 10 (by omega)]
          simp only [List.head?_cons, Option.some.injEq]
          exact tileChar_ne_pipe g _)]
        rw [ih f (x0 + 1)
          (tiles ++ parsedRange g (x0 * LEVEL_HEIGHT) LEVEL_HEIGHT)
          (by omega) (by omega) (by omega)
          (by rw [List.length_append, parsedRange_length, hlen]; ring)]
        rw [List.append_assoc]
        rw [show (x0 + 1) * LEVEL_HEIGHT
            = x0 * LEVEL_HEIGHT + LEVEL_HEIGHT by ring]
        rw [parsedRange_append]
        rw [show LEVEL_HEIGHT + k * LEVEL_HEIGHT
            = (k + 1) * LEVEL_HEIGHT by ring]

theorem tileChar_ne_nl (g : Levels) (j : Nat) : tileChar g j ≠ Char.ofNat 10 := by
  simp only [tileChar]
  split
  · decide
  · split
    · decide
    · split <;> decide

theorem nl_not_mem_serTail (g : Levels) (x0 y : Nat) :
    Char.ofNat 10 ∉ serTail g x0 y := by
  simp only [serTail, List.mem_append, List.mem_map, List.mem_singleton]
  rintro (⟨x, -, hx⟩ | h)
  · exact tileChar_ne_nl g _ hx
  · exact absurd h (by decide)

theorem splitNl_append (l s : List Char) (h : Char.ofNat 10 ∉ l) :
    splitNl (l ++ Char.ofNat 10 :: s) = l :: splitNl s := by
  induction l with
  | nil => simp [splitNl]
  | cons c l ih =>
      have hc : ¬c = Char.ofNat 10 := fun hc => h (by simp [hc])
      have hl : Char.ofNat 10 ∉ l := fun hl => h (List.mem_cons_of_mem _ hl)
      simp only [List.cons_append, splitNl, if_neg hc, List.append_eq, ih hl]

theorem splitNl_flatten (ls : List (List Char))
    (h : ∀ l ∈ ls, Char.ofNat 10 ∉ l) :
    splitNl (ls.flatMap (fun l => l ++ [Char.ofNat 10])) = ls ++ [[]] := by
  induction ls with
  | nil => rfl
  | cons l rest ih =>
      rw [List.flatMap_cons, List.append_assoc, List.singleton_append,
        splitNl_append l _ (h l (List.mem_cons_self _ _)),
        ih fun m hm => h m (List.mem_cons_of_mem _ hm)]
      rfl

theorem serialize_eq_linesAt (g : Levels) :
    serialize g = (linesAt g 0).flatMap (fun l => l ++ [Char.ofNat 10]) := by
  simp only [serialize, linesAt, List.flatMap_map, serTail, serializeRow,
    Nat.sub_zero, ← List.range_eq_range', List.append_assoc,
    List.singleton_append]

theorem serialize_length_ge (g : Levels) :
    (LEVEL_WIDTH - 1) * g.num_levels ≤ (serialize g).length := by
  have hser : serialize g
      = (serializeRow g 10 ++ ['|', Char.ofNat 10]) ++
        (([9, 8, 7, 6, 5, 4, 3, 2, 1, 0] : List Nat).flatMap
          (fun y => serializeRow g y ++ ['|', Char.ofNat 10])) := rfl
  rw [hser]
  simp only [List.length_append, serializeRow, List.length_map,
    List.length_range]
  omega

theorem lgAt_zero (g : Levels) : lgAt g 0 = none := by
  cases h : g.limited_gem <;> simp [lgAt, h]

theorem fgAt_zero (g : Levels) : fgAt g 0 = none := by
  cases h : g.full_gem <;> simp [fgAt, h]

theorem rustLines_serialize (g : Levels) :
    rustLines (serialize g) = linesAt g 0 := by
  rw [serialize_eq_linesAt]
  have hnl : ∀ l ∈ linesAt g 0, Char.ofNat 10 ∉ l := by
    intro l hl
    simp only [linesAt, List.mem_map] at hl
    obtain ⟨y, -, rfl⟩ := hl
    exact nl_not_mem_serTail g 0 y
  have hsplit := splitNl_flatten (linesAt g 0) hnl
  have hne_nil : (linesAt g 0).flatMap (fun l => l ++ [Char.ofNat 10]) ≠ [] := by
    intro hnil
    have hlen := congrArg List.length hnil
    rw [List.length_flatMap] at hlen
    simp [linesAt_explicit] at hlen
  simp only [rustLines, if_neg hne_nil, hsplit]
  rw [List.dropLast_concat, List.getLast?_concat]
  have hstrip : (linesAt g 0).map stripCr = (linesAt g 0).map id := by
    apply List.map_congr_left
    intro l hl
    simp only [linesAt, List.mem_map] at hl
    obtain ⟨y, -, rfl⟩ := hl
    simp only [stripCr, serTail, List.getLast?_concat, id]
    rw [if_neg (by decide)]
  rw [hstrip, List.map_id, List.append_nil]

theorem LEVEL_TILES_pos : 0 < LEVEL_TILES := by decide

/-- Claim C4 (amended). For every well-formed grid with 1 to 4 levels,
arbitrary tile booleans, and distinct in-range optional gem indices, parsing
the serialized text (`FromStr` applied to the `Display` output) succeeds and
reproduces the same `num_levels`, the same `limited_gem` and `full_gem`
indices, and the same tiles at every non-gem index, while the tiles at gem
indices parse back as open (`false` — the gem marker overwrites the stored
boolean in the text) and `level_index` and `x_offset` of the result are 0. -/
theorem c4_serialize_parse_roundtrip (g : Levels)
    (h1 : 1 ≤ g.num_levels) (h4 : g.num_levels ≤ 4)
    (hlen : g.tiles.length = LEVEL_TILES * g.num_levels)
    (hlg : ∀ j, g.limited_gem = some j → j < g.tiles.length)
    (hfg : ∀ j, g.full_gem = some j → j < g.tiles.length)
    (hne : ∀ a b, g.limited_gem = some a → g.full_gem = some b → a ≠ b) :
    from_str (serialize g)
      = .ok { tiles := (List.range g.tiles.length).map (fun j => parsedTile g j),
              num_levels := g.num_levels, level_index := 0, x_offset := 0,
              limited_gem := g.limited_gem, full_gem := g.full_gem } := by
  have hWH : g.tiles.length
      = ((LEVEL_WIDTH - 1) * g.num_levels) * LEVEL_HEIGHT := by
    rw [hlen]
    simp only [LEVEL_TILES, LEVEL_WIDTH, LEVEL_HEIGHT]
    ring
  have hWpos : 0 < (LEVEL_WIDTH - 1) * g.num_levels := by
    simp only [LEVEL_WIDTH]
    omega
  have hloop := parseLoop_linesAt g hne ((LEVEL_WIDTH - 1) * g.num_levels)
    ((serialize g).length + 1) 0 [] (by omega) hWpos
    (by have := serialize_length_ge g; omega) (by simp)
  rw [show (0 : Nat) * LEVEL_HEIGHT = 0 by ring, lgAt_zero, fgAt_zero,
    List.nil_append] at hloop
  simp only [from_str]
  rw [rustLines_serialize g]
  rw [if_pos (show (linesAt g 0).length = LEVEL_HEIGHT from rfl)]
  rw [hloop]
  dsimp only
  have hcnt : ((LEVEL_WIDTH - 1) * g.num_levels) * LEVEL_HEIGHT
      = LEVEL_TILES * g.num_levels := by
    simp only [LEVEL_TILES, LEVEL_WIDTH, LEVEL_HEIGHT]
    ring
  have hplen : (parsedRange g 0
      (((LEVEL_WIDTH - 1) * g.num_levels) * LEVEL_HEIGHT)).length
      = LEVEL_TILES * g.num_levels := by
    rw [parsedRange_length, hcnt]
  rw [hplen] -- hmm: rewrites length occurrences
  rw [if_pos (Nat.mul_mod_right LEVEL_TILES g.num_levels)]
  have hnum : LEVEL_TILES * g.num_levels / LEVEL_TILES = g.num_levels :=
    Nat.mul_div_cancel_left _ LEVEL_TILES_pos
  rw [hnum]
  have htiles : parsedRange g 0
      (((LEVEL_WIDTH - 1) * g.num_levels) * LEVEL_HEIGHT)
      = (List.range g.tiles.length).map (fun j => parsedTile g j) := by
    rw [parsedRange, hWH, List.range_eq_range']
  have hlg2 : lgAt g (((LEVEL_WIDTH - 1) * g.num_levels) * LEVEL_HEIGHT)
      = g.limited_gem := by
    cases hl : g.limited_gem with
    | none => simp [lgAt, hl]
    | some j =>
        have := hlg j hl
        rw [hWH] at this
        simp [lgAt, hl, this]
  have hfg2 : fgAt g (((LEVEL_WIDTH - 1) * g.num_levels) * LEVEL_HEIGHT)
      = g.full_gem := by
    cases hl : g.full_gem with
    | none => simp [fgAt, hl]
    | some j =>
        have := hfg j hl
        rw [hWH] at this
        simp [fgAt, hl, this]
  rw [htiles, hlg2, hfg2]

/-- The C4 counterexample grid: the limited gem sits on a `true` tile. -/
def c4gem : Levels :=
  { tiles := (List.replicate 154 false).set 5 true, num_levels := 1,
    level_index := 0, x_offset := 0, limited_gem := some 5, full_gem := none }

/-- The claim C4 promises the round trip reproduces the same tiles for
arbitrary tile booleans.  Not when a gem marker covers a `true` tile: the
marker serializes as `e` over the boolean and parses back as open, so the
tile at the gem index comes back `false`. -/
theorem c4_counterexample :
    ((from_str (serialize c4gem)).toOption.map (fun r => r.tiles.getD 5 false)
      = some false) ∧
    c4gem.tiles.getD 5 false = true := by
  constructor
  · decide
  · decide

/-- The C4 witness grid: one level, a solid tile at index 7, gems at 5 and
20. -/
def c4wit : Levels :=
  { tiles := (List.replicate 154 false).set 7 true, num_levels := 1,
    level_index := 0, x_offset := 0, limited_gem := some 5,
    full_gem := some 20 }

/-- Witness for C4 (amended) at a concrete grid. -/
theorem c4_serialize_parse_roundtrip_witness :
    from_str (serialize c4wit)
      = .ok { tiles := (List.range c4wit.tiles.length).map
                (fun j => parsedTile c4wit j),
              num_levels := c4wit.num_levels, level_index := 0, x_offset := 0,
              limited_gem := c4wit.limited_gem, full_gem := c4wit.full_gem } := by
  apply c4_serialize_parse_roundtrip c4wit
  · decide
  · decide
  · decide
  · intro j hj
    simp only [c4wit, Option.some.injEq] at hj
    subst hj
    decide
  · intro j hj
    simp only [c4wit, Option.some.injEq] at hj
    subst hj
    decide
  · intro a b ha hb
    simp only [c4wit, Option.some.injEq] at ha hb
    omega

end Inverse
